import Mathlib

/-!
Shallow embedding of the cursor-admin-usage dashboard core:
the deterministic PRNG (`mulberry32`), the FNV-1a string hash
(`hashStringToInt`), the spend-bucket parser and synthetic-user
generators from `SpendDistributionChart.tsx`, and the derived-metrics
arithmetic from the admin usage page.  JavaScript numbers are modelled
as exact rationals, 32-bit unsigned integer arithmetic as naturals
reduced mod 2^32, and JavaScript `Date` values at first-of-month
midnight as calendar month indices.
-/

namespace CursorUsage

/-- JavaScript `Math.round`: round half toward positive infinity. -/
def jsRound (x : ℚ) : ℤ := ⌊x + 1 / 2⌋

/-- JavaScript `Number(x.toFixed(2))`: round to two decimals, ties toward
the larger value. -/
def jsToFixed2 (x : ℚ) : ℚ := (⌊x * 100 + 1 / 2⌋ : ℚ) / 100

/-- JavaScript `Math.imul`: 32-bit integer multiplication; both operands
are first reduced to their 32-bit representations. -/
def imul32 (a b : ℕ) : ℕ := (a % 4294967296) * (b % 4294967296) % 4294967296

/-- Output computation of `mulberry32` for one already-advanced state `t`,
from `SpendDistributionChart.tsx` lines 164-167, as its unsigned 32-bit
value before the final division. -/
def mulberry32Out (t : ℕ) : ℕ :=
  let r1 := imul32 (Nat.xor (t % 4294967296) ((t % 4294967296) >>> 15)) (1 ||| (t % 4294967296))
  let r2 := Nat.xor r1 ((r1 + imul32 (Nat.xor r1 (r1 >>> 7)) (61 ||| r1)) % 4294967296)
  Nat.xor r2 (r2 >>> 14)

/-- Internal counter `t` of `mulberry32` after `n` calls: the seed is
first coerced with `>>> 0`, and each call adds `0x6D2B79F5` (mod 2^32). -/
def mulberry32T (seed : ℕ) : ℕ → ℕ
  | 0 => seed % 4294967296
  | n + 1 => (mulberry32T seed n + 0x6D2B79F5) % 4294967296

/-- Value returned by the `n`-th call (0-based) of the closure produced by
`mulberry32 seed`: the 32-bit output divided by 2^32. -/
def mulberry32Seq (seed : ℕ) (n : ℕ) : ℚ :=
  (mulberry32Out (mulberry32T seed (n + 1)) : ℚ) / 4294967296

/-- FNV-1a style string hash from `SpendDistributionChart.tsx` lines
152-159: start from 2166136261, XOR in each character code, multiply by
16777619 mod 2^32; the final `>>> 0` is the identity on this unsigned
representation. -/
def hashStringToInt (input : String) : ℕ :=
  input.data.foldl (fun hash c => imul32 (Nat.xor hash c.toNat) 16777619) 2166136261

/-- Parsed numeric range of a spend-bucket label. -/
structure BucketRange where
  min : ℕ
  max : ℕ
deriving DecidableEq, Repr

/-- Value of a run of decimal digits, as JavaScript `Number` on a digit
string. -/
def digitsToNat (ds : List Char) : ℕ :=
  ds.foldl (fun n c => n * 10 + (c.toNat - 48)) 0

/-- Attempt to match the regular expression `\$(\d+)[–-](\d+)` at the head
of the character list.  The first `\d+` is greedy; since the following
separator class contains no digit, greedy matching without backtracking is
equivalent to the regex semantics. -/
def matchBucketAt : List Char → Option (ℕ × ℕ)
  | '$' :: rest =>
    let ds1 := rest.takeWhile Char.isDigit
    match rest.dropWhile Char.isDigit with
    | sep :: rest2 =>
      if ds1 ≠ [] ∧ (sep = '–' ∨ sep = '-') then
        let ds2 := rest2.takeWhile Char.isDigit
        if ds2 ≠ [] then some (digitsToNat ds1, digitsToNat ds2) else none
      else none
    | [] => none
  | _ => none

/-- Unanchored regex search: try `matchBucketAt` at each successive start
position, leftmost match wins, as JavaScript `String.prototype.match`. -/
def searchBucket : List Char → Option (ℕ × ℕ)
  | [] => none
  | c :: cs =>
    match matchBucketAt (c :: cs) with
    | some r => some r
    | none => searchBucket cs

/-- Embedding of `parseBucket`, `SpendDistributionChart.tsx` lines 119-126: match
`\$(\d+)[–-](\d+)` anywhere in the label, supporting both hyphen and
en dash; return `none` for labels that fail the pattern. -/
def parseBucket (label : String) : Option BucketRange :=
  (searchBucket label.data).map fun r => ⟨r.1, r.2⟩

/-- Synthetic per-user row of the bucket drill-down table. -/
structure SyntheticUser where
  email : String
  spend : ℚ
deriving DecidableEq

/-- Loop body of `generateUsersForBucket` (lines 133-138): the `i`-th user
consumes two `Math.random()` draws, first the spend sample
`min + random * (max - min)` rounded by `toFixed(2)`, then the mailbox
number `floor(random * 900000 + 100000)`.  The ambient nondeterminism of
`Math.random` is modelled by the explicit draw stream `rand`. -/
def genUsersLoop (rand : ℕ → ℚ) (r : BucketRange) (toShow : ℕ) : List SyntheticUser :=
  (List.range toShow).map fun i =>
    { spend := jsToFixed2 ((r.min : ℚ) + rand (2 * i) * ((r.max : ℚ) - (r.min : ℚ)))
      email := "user" ++ toString (⌊rand (2 * i + 1) * 900000 + 100000⌋ : ℤ) ++ "@example.com" }

/-- Descending-by-spend comparator of `users.sort((a, b) => b.spend - a.spend)`. -/
def spendDesc (a b : SyntheticUser) : Prop := b.spend ≤ a.spend

instance : DecidableRel spendDesc := fun a b => inferInstanceAs (Decidable (b.spend ≤ a.spend))

instance : IsTotal SyntheticUser spendDesc := ⟨fun a b => le_total b.spend a.spend⟩

instance : IsTrans SyntheticUser spendDesc := ⟨fun _ _ _ h1 h2 => le_trans h2 h1⟩

/-- Embedding of `generateUsersForBucket`, `SpendDistributionChart.tsx` lines
128-141: empty result when the label fails to parse, otherwise
`min(50, max(1, totalUsers))` users sorted descending by spend. -/
def generateUsersForBucket (rand : ℕ → ℚ) (label : String) (totalUsers : ℤ) :
    List SyntheticUser :=
  match parseBucket label with
  | none => []
  | some r =>
    List.insertionSort spendDesc (genUsersLoop rand r (min 50 (max 1 totalUsers)).toNat)

/-- One entry of the model-usage breakdown. -/
structure ModelShare where
  model : String
  percent : ℤ
deriving DecidableEq

/-- Stats record returned by `generateUserStats`. -/
structure UserDetailStats where
  agentRequests : ℤ
  linesGenerated : ℤ
  linesAccepted : ℤ
  tabCompletionsAccepted : ℤ
  modelUsage : List ModelShare
deriving DecidableEq

/-- Sum of the `percent` fields, as
`modelUsage.reduce((s, m) => s + m.percent, 0)` (line 200). -/
def sumPercents (l : List ModelShare) : ℤ :=
  l.foldl (fun s m => s + m.percent) 0

/-- Index scan of lines 203-204: `idx` starts at 0 and moves to `i`
whenever entry `i` holds a strictly larger percent, yielding the first
index of the maximal share. -/
def largestShareIdx (l : List ModelShare) : ℕ :=
  (List.range l.length).foldl
    (fun idx i =>
      if (l.getD i ⟨"", 0⟩).percent > (l.getD idx ⟨"", 0⟩).percent then i else idx)
    0

/-- Rounding-drift correction of lines 200-206: when the rounded percents
do not reach 100, add the residual to the entry currently holding the
largest share. -/
def fixDrift (l : List ModelShare) : List ModelShare :=
  let diff := 100 - sumPercents l
  if diff = 0 then l
  else
    let idx := largestShareIdx l
    l.set idx ⟨(l.getD idx ⟨"", 0⟩).model, (l.getD idx ⟨"", 0⟩).percent + diff⟩

/-- Model-usage list construction of lines 192-206: proportional rounding
of the four weights followed by the drift correction. -/
def mkModelUsage (wGpt5 wSonnet wOpus wAuto : ℚ) : List ModelShare :=
  let sum := wGpt5 + wSonnet + wOpus + wAuto
  fixDrift
    [⟨"gpt-5", jsRound (wGpt5 / sum * 100)⟩,
     ⟨"claude-4-sonnet", jsRound (wSonnet / sum * 100)⟩,
     ⟨"claude-4-opus", jsRound (wOpus / sum * 100)⟩,
     ⟨"auto", jsRound (wAuto / sum * 100)⟩]

/-- Normalized spend factor of lines 172-174: spend relative to the
bucket's upper bound (1000 when the label is absent or malformed),
clamped to `[0.05, 1]`. -/
def spendFactorOf (spend : ℚ) (bucketLabel : Option String) : ℚ :=
  let range := bucketLabel.bind parseBucket
  let maxBench : ℚ := match range with | some r => (r.max : ℚ) | none => 1000
  min 1 (max 0.05 (spend / max 1 maxBench))

/-- Body of `generateUserStats` (lines 176-214) as a function of the spend
factor and the stream of PRNG draws, consumed in source order:
draw 0 for agent requests, 1 for generated lines, 2 for the acceptance
rate, 3 for tab completions, 4-7 for the four model weights. -/
def statsCore (spendFactor : ℚ) (v : ℕ → ℚ) : UserDetailStats :=
  let agentRequests := max 1 (jsRound ((100 + spendFactor * 4000) * (0.8 + v 0 * 0.4)))
  let linesGenerated :=
    jsRound ((agentRequests : ℚ) * (8 + v 1 * 12) * (0.9 + spendFactor * 0.6))
  let acceptanceRate := 0.45 + spendFactor * 0.4 + (v 2 - 0.5) * 0.06
  let linesAccepted :=
    min linesGenerated (max 0 (jsRound ((linesGenerated : ℚ) * acceptanceRate)))
  let tabCompletionsAccepted :=
    max 0 (jsRound ((200 + spendFactor * 6000) * (0.7 + v 3 * 0.6)))
  { agentRequests := agentRequests
    linesGenerated := linesGenerated
    linesAccepted := linesAccepted
    tabCompletionsAccepted := tabCompletionsAccepted
    modelUsage :=
      mkModelUsage
        (1.0 + v 4 * 0.6 + (1 - spendFactor) * 1.2)
        (1.0 + v 5 * 0.6 + spendFactor * 0.8)
        (1.0 + v 6 * 0.6 + spendFactor * 2.8)
        (0.8 + v 7 * 0.6 + (1 - spendFactor) * 0.6) }

/-- Embedding of `generateUserStats`, `SpendDistributionChart.tsx` lines 171-215:
the PRNG is seeded with `hashStringToInt(email)` and is the sole source of
variation besides the spend factor. -/
def generateUserStats (email : String) (spend : ℚ) (bucketLabel : Option String) :
    UserDetailStats :=
  statsCore (spendFactorOf spend bucketLabel) (mulberry32Seq (hashStringToInt email))

/-- Pool percentage of `loading.tsx` line 112:
`Math.max(0, Math.min(100, Math.round((remainingPool / totalPool) * 100)))`. -/
def remainingPercent (remainingPool totalPool : ℚ) : ℤ :=
  max 0 (min 100 (jsRound (remainingPool / totalPool * 100)))

/-- Milliseconds per day, line 117. -/
def msPerDay : ℚ := 24 * 60 * 60 * 1000

/-- Run-out horizon of line 120: `Math.ceil(remainingPool /
averageDailySpend)` when the burn rate is positive, otherwise the
`Infinity` sentinel, modelled as `none`. -/
def daysUntilRunOut (remainingPool averageDailySpend : ℚ) : Option ℤ :=
  if 0 < averageDailySpend then some ⌈remainingPool / averageDailySpend⌉ else none

/-- Projected run-out timestamp of lines 121-123: `now + days * msPerDay`
when the horizon is finite, otherwise `null`. -/
def projectedRunOutDate (now remainingPool averageDailySpend : ℚ) : Option ℚ :=
  (daysUntilRunOut remainingPool averageDailySpend).map fun d => now + (d : ℚ) * msPerDay

/-- Rendered run-out cell of lines 196-199: the formatted date when a
run-out date exists, otherwise the em-dash placeholder.  The excluded
`Intl` formatter is the parameter `fmt`. -/
def runOutCell (fmt : ℚ → String) (now remainingPool averageDailySpend : ℚ) : String :=
  match projectedRunOutDate now remainingPool averageDailySpend with
  | some d => fmt d
  | none => "—"

/-- JavaScript `Date` at first-of-month midnight, identified by its
calendar month index `year * 12 + month`; `renewalDate` and every date
derived from it by `setFullYear`/`setMonth` has this form. -/
structure JSDate where
  months : ℤ
deriving DecidableEq

/-- Timestamp of a first-of-month date on a scale that is strictly
increasing in calendar time and assigns each month index its own value;
`getTime` comparisons in the source are order comparisons on this scale. -/
def JSDate.time (d : JSDate) : ℚ := (d.months : ℚ)

/-- Contract start of lines 134-135: the renewal date with
`setFullYear(getFullYear() - 1)`, i.e. twelve months earlier. -/
def contractStart (renewsOn : JSDate) : JSDate := ⟨renewsOn.months - 12⟩

/-- True-up milestones of lines 136-140: the contract start advanced by
`setMonth(getMonth() + q * 3)` for `q = 1, 2, 3, 4`. -/
def trueUpMilestones (renewsOn : JSDate) : List JSDate :=
  [1, 2, 3, 4].map fun q => ⟨(contractStart renewsOn).months + q * 3⟩

/-- Next true-up date of line 141: the first milestone whose time is at
least `now`, with the renewal date itself as fallback. -/
def nextTrueUpDate (renewsOn : JSDate) (now : ℚ) : JSDate :=
  ((trueUpMilestones renewsOn).find? fun d => decide (now ≤ d.time)).getD renewsOn

/-! ### Basic bounds for the PRNG, rounding, and the spend factor -/

lemma imul32_lt (a b : ℕ) : imul32 a b < 4294967296 :=
  Nat.mod_lt _ (by norm_num)

lemma mulberry32Out_lt (t : ℕ) : mulberry32Out t < 4294967296 := by
  have h32 : (4294967296 : ℕ) = 2 ^ 32 := by norm_num
  have hmod : ∀ a : ℕ, a % 2 ^ 32 < 2 ^ 32 := fun a => Nat.mod_lt _ (by norm_num)
  have hx : ∀ a b : ℕ, a < 2 ^ 32 → b < 2 ^ 32 → Nat.xor a b < 2 ^ 32 :=
    fun _ _ ha hb => Nat.xor_lt_two_pow ha hb
  have hshift : ∀ a : ℕ, a >>> 14 ≤ a := fun a => by
    rw [Nat.shiftRight_eq_div_pow]; exact Nat.div_le_self _ _
  simp only [mulberry32Out, imul32, h32]
  apply hx
  · exact hx _ _ (hmod _) (hmod _)
  · exact lt_of_le_of_lt (hshift _) (hx _ _ (hmod _) (hmod _))

lemma mulberry32Seq_nonneg (seed n : ℕ) : 0 ≤ mulberry32Seq seed n := by
  unfold mulberry32Seq
  positivity

lemma mulberry32Seq_lt_one (seed n : ℕ) : mulberry32Seq seed n < 1 := by
  unfold mulberry32Seq
  rw [div_lt_one (by norm_num)]
  exact_mod_cast mulberry32Out_lt _

lemma jsRound_nonneg {x : ℚ} (h : 0 ≤ x) : 0 ≤ jsRound x :=
  Int.le_floor.mpr (by push_cast; linarith)

lemma spendFactorOf_bounds (spend : ℚ) (bucketLabel : Option String) :
    1 / 20 ≤ spendFactorOf spend bucketLabel ∧ spendFactorOf spend bucketLabel ≤ 1 := by
  simp only [spendFactorOf]
  exact ⟨le_min (by norm_num) (le_trans (by norm_num) (le_max_left 0.05 _)), min_le_left _ _⟩

/-! ### Summation and drift-correction lemmas for the model-usage list -/

lemma foldl_add_percent (l : List ModelShare) :
    ∀ init : ℤ, l.foldl (fun s m => s + m.percent) init = init + (l.map fun m => m.percent).sum := by
  induction l with
  | nil => intro init; simp
  | cons a l ih => intro init; simp [List.foldl_cons, ih, add_assoc]

lemma sumPercents_eq_sum (l : List ModelShare) :
    sumPercents l = (l.map fun m => m.percent).sum := by
  simpa [sumPercents] using foldl_add_percent l 0

lemma sum_map_set (l : List ModelShare) (i : ℕ) (x : ModelShare) (hi : i < l.length) :
    ((l.set i x).map fun m => m.percent).sum
      = (l.map fun m => m.percent).sum - (l.getD i ⟨"", 0⟩).percent + x.percent := by
  induction l generalizing i with
  | nil => simp at hi
  | cons a l ih =>
    cases i with
    | zero =>
      simp only [List.set_cons_zero, List.map_cons, List.sum_cons, List.getD_cons_zero]
      ring
    | succ n =>
      have hn : n < l.length := by simpa using hi
      simp only [List.set_cons_succ, List.map_cons, List.sum_cons, List.getD_cons_succ, ih n hn]
      ring

lemma largestShareIdx_lt (l : List ModelShare) (h : 0 < l.length) :
    largestShareIdx l < l.length := by
  unfold largestShareIdx
  have key : ∀ (is : List ℕ) (acc : ℕ), acc < l.length → (∀ i ∈ is, i < l.length) →
      is.foldl
        (fun idx i =>
          if (l.getD i ⟨"", 0⟩).percent > (l.getD idx ⟨"", 0⟩).percent then i else idx)
        acc < l.length := by
    intro is
    induction is with
    | nil => intro acc hacc _; simpa using hacc
    | cons j js ih =>
      intro acc hacc hmem
      simp only [List.foldl_cons]
      split
      · exact ih j (hmem j (by simp)) fun i hi => hmem i (by simp [hi])
      · exact ih acc hacc fun i hi => hmem i (by simp [hi])
  exact key (List.range l.length) 0 h fun i hi => List.mem_range.mp hi

lemma fixDrift_sum (l : List ModelShare) (h : 0 < l.length) :
    sumPercents (fixDrift l) = 100 := by
  simp only [fixDrift]
  split_ifs with hd
  · omega
  · rw [sumPercents_eq_sum, sum_map_set l _ _ (largestShareIdx_lt l h), ← sumPercents_eq_sum]
    ring

lemma fixDrift_length (l : List ModelShare) : (fixDrift l).length = l.length := by
  simp only [fixDrift]
  split_ifs <;> simp

lemma mkModelUsage_sum (w1 w2 w3 w4 : ℚ) : sumPercents (mkModelUsage w1 w2 w3 w4) = 100 := by
  simp only [mkModelUsage]
  exact fixDrift_sum _ (by simp)

lemma mkModelUsage_length (w1 w2 w3 w4 : ℚ) : (mkModelUsage w1 w2 w3 w4).length = 4 := by
  simp only [mkModelUsage]
  rw [fixDrift_length]
  rfl

/-! ### Claim theorems -/

/-- C9: for every seed and every position in the output stream, the value
produced by `mulberry32` lies in `[0, 1)`, and — the generator being a pure
function of the seed — the value at each position is reproduced exactly on
any repeated run from the same seed. -/
theorem mulberry32_range_and_reproducible (seed n : ℕ) :
    0 ≤ mulberry32Seq seed n ∧ mulberry32Seq seed n < 1 ∧
      mulberry32Seq seed n = mulberry32Seq seed n :=
  ⟨mulberry32Seq_nonneg seed n, mulberry32Seq_lt_one seed n, rfl⟩

/-- C2: `generateUserStats` is deterministic and idempotent, with
`hashStringToInt identity` seeding the PRNG as the sole source of
variation: any two identities with equal hashes (in particular the same
identity twice) yield identical stats for the same spend and bucket. -/
theorem generateUserStats_hash_determined (e1 e2 : String) (spend : ℚ)
    (bucketLabel : Option String) (h : hashStringToInt e1 = hashStringToInt e2) :
    generateUserStats e1 spend bucketLabel = generateUserStats e2 spend bucketLabel := by
  unfold generateUserStats
  rw [h]

theorem generateUserStats_hash_determined_witness :
    hashStringToInt "alice" = hashStringToInt "alice" ∧
      generateUserStats "alice" 25 (some "$20–40") =
        generateUserStats "alice" 25 (some "$20–40") :=
  ⟨rfl, generateUserStats_hash_determined "alice" "alice" 25 (some "$20–40") rfl⟩

/-- C1: for every identity, spend, and bucket label (present, absent, or
malformed), the `modelUsage` list has exactly four entries and its integer
percentages sum to exactly 100. -/
theorem generateUserStats_modelUsage_sum100 (email : String) (spend : ℚ)
    (bucketLabel : Option String) :
    (generateUserStats email spend bucketLabel).modelUsage.length = 4 ∧
      sumPercents (generateUserStats email spend bucketLabel).modelUsage = 100 :=
  ⟨mkModelUsage_length _ _ _ _, mkModelUsage_sum _ _ _ _⟩

lemma statsCore_lines (sf : ℚ) (v : ℕ → ℚ) (hsf : 0 ≤ sf) (hv : ∀ n, 0 ≤ v n) :
    0 ≤ (statsCore sf v).linesGenerated ∧
      (statsCore sf v).linesAccepted ≤ (statsCore sf v).linesGenerated ∧
      0 ≤ (statsCore sf v).linesAccepted := by
  simp only [statsCore]
  have hARq : (0 : ℚ) ≤ ((max 1 (jsRound ((100 + sf * 4000) * (0.8 + v 0 * 0.4))) : ℤ) : ℚ) := by
    exact_mod_cast le_trans zero_le_one (le_max_left 1 _)
  have hLG : 0 ≤ jsRound (((max 1 (jsRound ((100 + sf * 4000) * (0.8 + v 0 * 0.4))) : ℤ) : ℚ)
      * (8 + v 1 * 12) * (0.9 + sf * 0.6)) := by
    apply jsRound_nonneg
    have h2 : (0 : ℚ) ≤ 8 + v 1 * 12 := by nlinarith [hv 1]
    have h3 : (0 : ℚ) ≤ 0.9 + sf * 0.6 := by nlinarith
    exact mul_nonneg (mul_nonneg hARq h2) h3
  exact ⟨hLG, min_le_left _ _, le_min hLG (le_max_left 0 _)⟩

/-- C7: for every identity, spend, and bucket label, the generated stats
satisfy `0 ≤ linesGenerated`, `linesAccepted ≤ linesGenerated`, and
`0 ≤ linesAccepted`. -/
theorem generateUserStats_lines_sound (email : String) (spend : ℚ)
    (bucketLabel : Option String) :
    0 ≤ (generateUserStats email spend bucketLabel).linesGenerated ∧
      (generateUserStats email spend bucketLabel).linesAccepted ≤
        (generateUserStats email spend bucketLabel).linesGenerated ∧
      0 ≤ (generateUserStats email spend bucketLabel).linesAccepted :=
  statsCore_lines _ _
    (le_trans (by norm_num) (spendFactorOf_bounds spend bucketLabel).1)
    (fun n => mulberry32Seq_nonneg _ n)

/-- C3: with a positive total pool, `remainingPercent` equals
`round(100 * remainingPool / totalPool)` clamped to `[0, 100]`, and the
scenario `totalPool = 1000000`, `remainingPool = 732450` yields 73. -/
theorem remainingPercent_spec (remainingPool totalPool : ℚ) (h : 0 < totalPool) :
    remainingPercent remainingPool totalPool
        = max 0 (min 100 (jsRound (100 * remainingPool / totalPool))) ∧
      0 ≤ remainingPercent remainingPool totalPool ∧
      remainingPercent remainingPool totalPool ≤ 100 ∧
      remainingPercent 732450 1000000 = 73 := by
  have h73 : remainingPercent 732450 1000000 = 73 := by
    have hj : jsRound ((732450 : ℚ) / 1000000 * 100) = 73 := by
      rw [jsRound, Int.floor_eq_iff]
      norm_num
    rw [remainingPercent, hj]
    norm_num
  refine ⟨?_, le_max_left _ _, max_le (by norm_num) (min_le_left _ _), h73⟩
  rw [remainingPercent, show remainingPool / totalPool * 100 = 100 * remainingPool / totalPool
    from by ring]

theorem remainingPercent_spec_witness :
    (0 : ℚ) < 1000000 ∧ remainingPercent 732450 1000000 = 73 :=
  ⟨by norm_num, (remainingPercent_spec 732450 1000000 (by norm_num)).2.2.2⟩

/-- C4: with a positive average daily spend the run-out horizon is
`ceil(remainingPool / averageDailySpend)` days; with a zero average daily
spend it is the unbounded sentinel and the rendered cell is the em-dash
placeholder instead of a date. -/
theorem daysUntilRunOut_spec (remainingPool averageDailySpend : ℚ) :
    (0 < averageDailySpend →
      daysUntilRunOut remainingPool averageDailySpend
        = some ⌈remainingPool / averageDailySpend⌉) ∧
    (averageDailySpend = 0 →
      daysUntilRunOut remainingPool averageDailySpend = none ∧
      ∀ (fmt : ℚ → String) (now : ℚ),
        runOutCell fmt now remainingPool averageDailySpend = "—") := by
  constructor
  · intro h
    simp [daysUntilRunOut, h]
  · intro h
    subst h
    have hd : daysUntilRunOut remainingPool 0 = none := by simp [daysUntilRunOut]
    exact ⟨hd, fun fmt now => by simp [runOutCell, projectedRunOutDate, hd]⟩

theorem daysUntilRunOut_spec_witness :
    (0 : ℚ) < 4000 ∧
      daysUntilRunOut 732450 4000 = some ⌈(732450 : ℚ) / 4000⌉ ∧
      runOutCell (fun _ => "Jan 1, 2027") 0 732450 0 = "—" :=
  ⟨by norm_num, (daysUntilRunOut_spec 732450 4000).1 (by norm_num),
    ((daysUntilRunOut_spec 732450 0).2 rfl).2 _ 0⟩

/-- C6: the label `"$20–40"` parses to the range `{min := 20, max := 40}`,
a hyphen works as well as an en dash, a label failing the pattern (such as
`"20 to 40"`) yields no range, and the drill-down then returns the empty
user list instead of failing. -/
theorem parseBucket_spec :
    parseBucket "$20–40" = some ⟨20, 40⟩ ∧
    parseBucket "$20-40" = some ⟨20, 40⟩ ∧
    parseBucket "20 to 40" = none ∧
    ∀ (rand : ℕ → ℚ) (totalUsers : ℤ) (label : String),
      parseBucket label = none → generateUsersForBucket rand label totalUsers = [] := by
  refine ⟨by decide, by decide, by decide, ?_⟩
  intro rand totalUsers label h
  simp [generateUsersForBucket, h]

theorem parseBucket_spec_witness :
    parseBucket "20 to 40" = none ∧
      generateUsersForBucket (fun _ => 0) "20 to 40" 5 = [] :=
  ⟨by decide, parseBucket_spec.2.2.2 (fun _ => 0) 5 "20 to 40" (by decide)⟩

/-- C10: whenever the label parses, the drill-down generates exactly
`min(50, max(1, totalUsers))` synthetic users — in particular at least one
even when the bucket's reported user count is zero or negative. -/
theorem generateUsersForBucket_count (rand : ℕ → ℚ) (label : String) (r : BucketRange)
    (totalUsers : ℤ) (hp : parseBucket label = some r) :
    (generateUsersForBucket rand label totalUsers).length
        = (min 50 (max 1 totalUsers)).toNat ∧
      1 ≤ (generateUsersForBucket rand label totalUsers).length := by
  have hlen : (generateUsersForBucket rand label totalUsers).length
      = (min 50 (max 1 totalUsers)).toNat := by
    simp [generateUsersForBucket, hp, List.length_insertionSort, genUsersLoop]
  have h1 : (1 : ℤ) ≤ min 50 (max 1 totalUsers) := le_min (by norm_num) (le_max_left _ _)
  exact ⟨hlen, by rw [hlen]; omega⟩

theorem generateUsersForBucket_count_witness :
    parseBucket "$0–20" = some ⟨0, 20⟩ ∧
      (generateUsersForBucket (fun _ => 0) "$0–20" 0).length
          = (min 50 (max 1 (0 : ℤ))).toNat ∧
      1 ≤ (generateUsersForBucket (fun _ => 0) "$0–20" 0).length :=
  ⟨by decide,
    (generateUsersForBucket_count (fun _ => 0) "$0–20" ⟨0, 20⟩ 0 (by decide)).1,
    (generateUsersForBucket_count (fun _ => 0) "$0–20" ⟨0, 20⟩ 0 (by decide)).2⟩

lemma jsToFixed2_bounds (a b : ℤ) (x : ℚ) (ha : (a : ℚ) ≤ x) (hb : x ≤ (b : ℚ)) :
    (a : ℚ) ≤ jsToFixed2 x ∧ jsToFixed2 x ≤ (b : ℚ) := by
  unfold jsToFixed2
  constructor
  · rw [le_div_iff (by norm_num : (0 : ℚ) < 100)]
    have hfl : (100 * a : ℤ) ≤ ⌊x * 100 + 1 / 2⌋ := Int.le_floor.mpr (by push_cast; linarith)
    calc (a : ℚ) * 100 = ((100 * a : ℤ) : ℚ) := by push_cast; ring
      _ ≤ (⌊x * 100 + 1 / 2⌋ : ℚ) := by exact_mod_cast hfl
  · rw [div_le_iff (by norm_num : (0 : ℚ) < 100)]
    have hfl : ⌊x * 100 + 1 / 2⌋ < 100 * b + 1 := Int.floor_lt.mpr (by push_cast; linarith)
    have hfl2 : ⌊x * 100 + 1 / 2⌋ ≤ 100 * b := by omega
    calc (⌊x * 100 + 1 / 2⌋ : ℚ) ≤ ((100 * b : ℤ) : ℚ) := by exact_mod_cast hfl2
      _ = (b : ℚ) * 100 := by push_cast; ring

lemma genUsersLoop_spend_bounds (rand : ℕ → ℚ) (r : BucketRange) (toShow : ℕ)
    (hminmax : r.min ≤ r.max) (hrand : ∀ n, 0 ≤ rand n ∧ rand n < 1) :
    ∀ u ∈ genUsersLoop rand r toShow, (r.min : ℚ) ≤ u.spend ∧ u.spend ≤ (r.max : ℚ) := by
  intro u hu
  simp only [genUsersLoop, List.mem_map, List.mem_range] at hu
  obtain ⟨i, _, rfl⟩ := hu
  have hdiff : (0 : ℚ) ≤ (r.max : ℚ) - (r.min : ℚ) := by
    rw [sub_nonneg]
    exact_mod_cast hminmax
  have hx1 : (r.min : ℚ) ≤ (r.min : ℚ) + rand (2 * i) * ((r.max : ℚ) - (r.min : ℚ)) := by
    nlinarith [(hrand (2 * i)).1]
  have hx2 : (r.min : ℚ) + rand (2 * i) * ((r.max : ℚ) - (r.min : ℚ)) ≤ (r.max : ℚ) := by
    nlinarith [(hrand (2 * i)).1, (hrand (2 * i)).2]
  have := jsToFixed2_bounds (r.min : ℤ) (r.max : ℤ)
    ((r.min : ℚ) + rand (2 * i) * ((r.max : ℚ) - (r.min : ℚ)))
    (by push_cast; exact_mod_cast hx1) (by push_cast; exact_mod_cast hx2)
  constructor
  · exact_mod_cast this.1
  · exact_mod_cast this.2

/-- C8: for a label that parses to a range and any reported total, the
drill-down returns at most 50 users, sorted descending by spend, each
spend being the `toFixed(2)` rounding of a uniform draw positioned inside
the bucket's range (hence lying between the range's bounds). -/
theorem generateUsersForBucket_cap_sorted_range (rand : ℕ → ℚ) (label : String)
    (r : BucketRange) (totalUsers : ℤ) (hp : parseBucket label = some r)
    (hminmax : r.min ≤ r.max) (hrand : ∀ n, 0 ≤ rand n ∧ rand n < 1) :
    (generateUsersForBucket rand label totalUsers).length ≤ 50 ∧
      List.Sorted spendDesc (generateUsersForBucket rand label totalUsers) ∧
      ∀ u ∈ generateUsersForBucket rand label totalUsers,
        (r.min : ℚ) ≤ u.spend ∧ u.spend ≤ (r.max : ℚ) := by
  have hunfold : generateUsersForBucket rand label totalUsers
      = List.insertionSort spendDesc
          (genUsersLoop rand r (min 50 (max 1 totalUsers)).toNat) := by
    simp [generateUsersForBucket, hp]
  refine ⟨?_, ?_, ?_⟩
  · rw [hunfold, List.length_insertionSort, genUsersLoop, List.length_map, List.length_range]
    have hcap : min 50 (max 1 totalUsers) ≤ 50 := min_le_left _ _
    omega
  · rw [hunfold]
    exact List.sorted_insertionSort spendDesc _
  · intro u hu
    rw [hunfold, List.mem_insertionSort] at hu
    exact genUsersLoop_spend_bounds rand r _ hminmax hrand u hu

theorem generateUsersForBucket_cap_sorted_range_witness :
    parseBucket "$20–40" = some ⟨20, 40⟩ ∧ (20 : ℕ) ≤ 40 ∧
      (∀ n : ℕ, 0 ≤ (fun _ : ℕ => (1 : ℚ) / 2) n ∧ (fun _ : ℕ => (1 : ℚ) / 2) n < 1) ∧
      ((generateUsersForBucket (fun _ => (1 : ℚ) / 2) "$20–40" 3).length ≤ 50 ∧
        List.Sorted spendDesc (generateUsersForBucket (fun _ => (1 : ℚ) / 2) "$20–40" 3) ∧
        ∀ u ∈ generateUsersForBucket (fun _ => (1 : ℚ) / 2) "$20–40" 3,
          ((20 : ℕ) : ℚ) ≤ u.spend ∧ u.spend ≤ ((40 : ℕ) : ℚ)) :=
  ⟨by decide, by decide, fun n => by norm_num,
    generateUsersForBucket_cap_sorted_range (fun _ => (1 : ℚ) / 2) "$20–40" ⟨20, 40⟩ 3
      (by decide) (by decide) (fun n => by norm_num)⟩

lemma trueUpMilestones_eq (renewsOn : JSDate) :
    trueUpMilestones renewsOn =
      [⟨renewsOn.months - 9⟩, ⟨renewsOn.months - 6⟩,
       ⟨renewsOn.months - 3⟩, ⟨renewsOn.months⟩] := by
  simp only [trueUpMilestones, contractStart, List.map_cons, List.map_nil, List.cons.injEq,
    JSDate.mk.injEq, and_true]
  omega

lemma nextTrueUpDate_closed (renewsOn : JSDate) (now : ℚ) :
    nextTrueUpDate renewsOn now =
      if now ≤ (renewsOn.months : ℚ) - 9 then ⟨renewsOn.months - 9⟩
      else if now ≤ (renewsOn.months : ℚ) - 6 then ⟨renewsOn.months - 6⟩
      else if now ≤ (renewsOn.months : ℚ) - 3 then ⟨renewsOn.months - 3⟩
      else if now ≤ (renewsOn.months : ℚ) then ⟨renewsOn.months⟩
      else renewsOn := by
  rw [nextTrueUpDate, trueUpMilestones_eq]
  by_cases h1 : now ≤ (renewsOn.months : ℚ) - 9
  · simp [List.find?, JSDate.time, h1]
  · by_cases h2 : now ≤ (renewsOn.months : ℚ) - 6
    · simp [List.find?, JSDate.time, h1, h2]
    · by_cases h3 : now ≤ (renewsOn.months : ℚ) - 3
      · simp [List.find?, JSDate.time, h1, h2, h3]
      · by_cases h4 : now ≤ (renewsOn.months : ℚ)
        · simp [List.find?, JSDate.time, h1, h2, h3, h4]
        · simp [List.find?, JSDate.time, h1, h2, h3, h4]

/-- C5: the contract start is the renewal date minus one year (twelve
months), the four true-up milestones are the contract start plus 3, 6, 9
and 12 months, and the next true-up date is the earliest milestone whose
time is at least `now`, falling back to the renewal date itself when every
milestone lies strictly before `now`. -/
theorem trueUp_spec (renewsOn : JSDate) (now : ℚ) :
    contractStart renewsOn = ⟨renewsOn.months - 12⟩ ∧
    trueUpMilestones renewsOn
        = [3, 6, 9, 12].map (fun k => ⟨(contractStart renewsOn).months + k⟩) ∧
    ((∃ d ∈ trueUpMilestones renewsOn, now ≤ d.time) →
      nextTrueUpDate renewsOn now ∈ trueUpMilestones renewsOn ∧
      now ≤ (nextTrueUpDate renewsOn now).time ∧
      ∀ d ∈ trueUpMilestones renewsOn, now ≤ d.time →
        (nextTrueUpDate renewsOn now).time ≤ d.time) ∧
    ((∀ d ∈ trueUpMilestones renewsOn, d.time < now) →
      nextTrueUpDate renewsOn now = renewsOn) := by
  have hM := trueUpMilestones_eq renewsOn
  have hC := nextTrueUpDate_closed renewsOn now
  refine ⟨rfl, ?_, ?_, ?_⟩
  · rw [hM]
    simp only [contractStart, List.map_cons, List.map_nil, List.cons.injEq, JSDate.mk.injEq,
      and_true]
    omega
  · intro hex
    rw [hM] at hex ⊢
    rw [hC]
    split_ifs with h1 h2 h3 h4
    · refine ⟨by simp, by simp only [JSDate.time]; push_cast; linarith, ?_⟩
      intro d hd hnd
      simp only [List.mem_cons, List.not_mem_nil, or_false] at hd
      rcases hd with rfl | rfl | rfl | rfl <;>
        · simp only [JSDate.time] at hnd ⊢
          push_cast at hnd ⊢
          linarith
    · refine ⟨by simp, by simp only [JSDate.time]; push_cast; linarith, ?_⟩
      intro d hd hnd
      simp only [List.mem_cons, List.not_mem_nil, or_false] at hd
      rcases hd with rfl | rfl | rfl | rfl <;>
        · simp only [JSDate.time] at hnd ⊢
          push_cast at hnd ⊢
          linarith
    · refine ⟨by simp, by simp only [JSDate.time]; push_cast; linarith, ?_⟩
      intro d hd hnd
      simp only [List.mem_cons, List.not_mem_nil, or_false] at hd
      rcases hd with rfl | rfl | rfl | rfl <;>
        · simp only [JSDate.time] at hnd ⊢
          push_cast at hnd ⊢
          linarith
    · refine ⟨by simp, by simp only [JSDate.time]; push_cast; linarith, ?_⟩
      intro d hd hnd
      simp only [List.mem_cons, List.not_mem_nil, or_false] at hd
      rcases hd with rfl | rfl | rfl | rfl <;>
        · simp only [JSDate.time] at hnd ⊢
          push_cast at hnd ⊢
          linarith
    · obtain ⟨d, hd, hnd⟩ := hex
      simp only [List.mem_cons, List.not_mem_nil, or_false] at hd
      rcases hd with rfl | rfl | rfl | rfl <;>
        · simp only [JSDate.time] at hnd
          push_cast at hnd
          linarith
  · intro hall
    rw [hM] at hall
    rw [hC]
    have l1 := hall ⟨renewsOn.months - 9⟩ (by simp)
    have l2 := hall ⟨renewsOn.months - 6⟩ (by simp)
    have l3 := hall ⟨renewsOn.months - 3⟩ (by simp)
    have l4 := hall ⟨renewsOn.months⟩ (by simp)
    simp only [JSDate.time] at l1 l2 l3 l4
    push_cast at l1 l2 l3 l4
    split_ifs with h1 h2 h3 h4
    · exact absurd h1 (not_le.mpr l1)
    · exact absurd h2 (not_le.mpr l2)
    · exact absurd h3 (not_le.mpr l3)
    · exact absurd h4 (not_le.mpr l4)
    · rfl

theorem trueUp_spec_witness :
    (∀ d ∈ trueUpMilestones ⟨24310⟩, JSDate.time d < 24311) ∧
      nextTrueUpDate ⟨24310⟩ 24311 = ⟨24310⟩ := by
  have hall : ∀ d ∈ trueUpMilestones ⟨24310⟩, JSDate.time d < 24311 := by
    intro d hd
    rw [trueUpMilestones_eq] at hd
    simp only [List.mem_cons, List.not_mem_nil, or_false] at hd
    rcases hd with rfl | rfl | rfl | rfl <;> · show ((_ : ℤ) : ℚ) < 24311; norm_num
  exact ⟨hall, (trueUp_spec ⟨24310⟩ 24311).2.2.2 hall⟩

end CursorUsage
